import Mathlib

/-!
Shallow embedding of `crypto_random.c` (randstr): a command-line utility that
generates cryptographically secure random strings over a fixed character set
and reports the Shannon entropy of the result.

Modelling conventions:
* C strings are `List Char`; raw random bytes are `List Nat` (values 0..255).
* `malloc` outcomes and the random-byte source are explicit parameters of the
  functions that perform them (`Bool` success flags, `Option (List Nat)`).
* The `/dev/urandom` fallback read loop of `get_random_bytes` is driven by an
  explicit finite trace of `read(2)` outcomes.
* C `double` arithmetic is modelled over `ℝ`.
-/

namespace Randstr

/-- The three character-set constants of `crypto_random.c` (lines 44-46). -/
def CHARSET_FULL : List Char :=
  "ABCDEFGHIJKLMNOPQRSTUVWXYZabcdefghijklmnopqrstuvwxyz0123456789!@#$%^&*()-_=+[]\x7b\x7d|;:,.<>?".toList

/-- Alphanumeric charset constant (line 45). -/
def CHARSET_ALNUM : List Char :=
  "ABCDEFGHIJKLMNOPQRSTUVWXYZabcdefghijklmnopqrstuvwxyz0123456789".toList

/-- Numeric charset constant (line 46). -/
def CHARSET_NUM : List Char :=
  "0123456789".toList

/-- One outcome of a `read(2)` call on the `/dev/urandom` file descriptor:
either an error (distinguished by whether `errno == EINTR`) or a chunk of
bytes actually delivered. -/
inductive ReadResult where
  | err (isEINTR : Bool)
  | ok (chunk : List Nat)
deriving DecidableEq, Repr

/-- The `while (bytes_read < length)` loop of `get_random_bytes`
(crypto_random.c lines 71-81), driven by a finite trace of read outcomes.
`acc` is the bytes collected so far.  A read never delivers more than the
`length - bytes_read` bytes requested, which `List.take` enforces.  `none`
models the `return -1` on a non-EINTR read error; an exhausted trace while
bytes are still owed is also `none` (the C loop would issue another read). -/
def urandom_read_loop (length : Nat) (acc : List Nat) :
    List ReadResult → Option (List Nat)
  | [] => if length ≤ acc.length then some acc else none
  | ReadResult.err isEINTR :: rest =>
      if length ≤ acc.length then some acc
      else if isEINTR then urandom_read_loop length acc rest
      else none
  | ReadResult.ok chunk :: rest =>
      if length ≤ acc.length then some acc
      else urandom_read_loop length (acc ++ chunk.take (length - acc.length)) rest

/-- The `/dev/urandom` fallback path of `get_random_bytes`
(crypto_random.c lines 65-84): `open` may fail (`openOk = false` models
`fd < 0`), then the read loop runs over the trace of read outcomes. -/
def get_random_bytes_fallback (length : Nat) (openOk : Bool)
    (events : List ReadResult) : Option (List Nat) :=
  if openOk then urandom_read_loop length [] events else none

/-- The body of the conversion loop of `generate_random_string`
(line 119): `charset[b % charset_size]`. -/
def charset_map (charset : List Char) (b : Nat) : Char :=
  charset.getD (b % charset.length) 'A'

/-- `generate_random_string` (crypto_random.c lines 89-125).  The two
`malloc` calls and the `get_random_bytes` call are explicit parameters:
`allocResult`/`allocBytes` are the success of the two allocations, and
`randomBytes` is `some bs` when `get_random_bytes` succeeded filling the
buffer with `bs` (exactly `length` bytes in the real program).  `none`
models returning `NULL`.  On success the result is
`result[i] = charset[random_bytes[i] % charset_size]` for `i < length`. -/
def generate_random_string (length : Nat) (charset : List Char)
    (allocResult allocBytes : Bool) (randomBytes : Option (List Nat)) :
    Option (List Char) :=
  if allocResult = false then none
  else if allocBytes = false then none
  else
    match randomBytes with
    | none => none
    | some bs =>
        some ((List.range length).map fun i => charset_map charset (bs.getD i 0))

/-- `calculate_shannon_entropy` (crypto_random.c lines 128-147) over a list
of byte values: for each of the 256 byte values with positive frequency,
subtract `p * (log p / log 2)` where `p = freq / len`.  C `double`
arithmetic is modelled over `ℝ`. -/
noncomputable def calculate_shannon_entropy (s : List Nat) : ℝ :=
  ∑ i ∈ Finset.range 256,
    if 0 < s.count i then
      -(((s.count i : ℝ) / (s.length : ℝ))
          * (Real.log ((s.count i : ℝ) / (s.length : ℝ)) / Real.log 2))
    else 0

/-- C `isspace` in the default locale (the characters `strtol` skips). -/
def c_isspace (c : Char) : Bool :=
  c = ' ' || c = '\t' || c = '\n' || c = '\x0b' || c = '\x0c' || c = '\r'

/-- C `isdigit`. -/
def c_isdigit (c : Char) : Bool :=
  '0' ≤ c && c ≤ '9'

/-- LONG_MAX on the 64-bit targets the program is built for. -/
def LONG_MAX : Int := 9223372036854775807

/-- LONG_MIN on the 64-bit targets the program is built for. -/
def LONG_MIN : Int := -9223372036854775808

/-- Out-of-range `strtol` results are clamped to LONG_MAX / LONG_MIN
(the program never inspects `errno` after the call). -/
def clamp_long (v : Int) : Int :=
  if v > LONG_MAX then LONG_MAX else if v < LONG_MIN then LONG_MIN else v

/-- `strtol(s, &endptr, 10)`: skip leading whitespace, take an optional
sign, then a maximal run of decimal digits.  Returns the (clamped) value
together with the index `endptr` points at.  When no digits are consumed,
no conversion is performed: the value is 0 and `endptr` is the start of
the string (index 0). -/
def strtol10 (s : List Char) : Int × Nat :=
  let sp := (s.takeWhile c_isspace).length
  let rest := s.drop sp
  let neg : Bool :=
    match rest with
    | '-' :: _ => true
    | _ => false
  let signLen : Nat :=
    match rest with
    | '-' :: _ => 1
    | '+' :: _ => 1
    | _ => 0
  let ds := (rest.drop signLen).takeWhile c_isdigit
  if ds.length = 0 then (0, 0)
  else
    let mag : Int := (ds.foldl (fun a c => a * 10 + (c.toNat - 48)) 0 : Nat)
    (clamp_long (if neg then -mag else mag), sp + signLen + ds.length)

/-- The length-argument validation of `main` (crypto_random.c lines
166-171): `strtol` must consume the whole argument (`*endptr == '\0'`)
and the value must lie in `(0, 1000000]`; otherwise the program exits 1. -/
def parse_length (s : List Char) : Option Int :=
  let r := strtol10 s
  if r.2 ≠ s.length ∨ r.1 ≤ 0 ∨ r.1 > 1000000 then none else some r.1

/-- The mode-argument handling of `main` (crypto_random.c lines 174-188):
default is FULL; `alnum` and `num` select the other charsets; `full` keeps
the default; anything else is rejected. -/
def parse_charset (arg : Option (List Char)) : Option (List Char) :=
  match arg with
  | none => some CHARSET_FULL
  | some m =>
      if m = "alnum".toList then some CHARSET_ALNUM
      else if m = "num".toList then some CHARSET_NUM
      else if m = "full".toList then some CHARSET_FULL
      else none

/-- The text `print_usage` writes to stdout (crypto_random.c lines
149-157), with both `%s` holes filled with the program name. -/
def usage_text (prog : List Char) : List Char :=
  ("Usage: ".toList ++ prog ++ " <length> [mode]\n".toList)
    ++ "  length: Length of the random string to generate\n".toList
    ++ "  mode (optional):\n".toList
    ++ "    full   - All printable ASCII including special chars (default)\n".toList
    ++ "    alnum  - Alphanumeric only (A-Z, a-z, 0-9)\n".toList
    ++ "    num    - Numbers only (0-9)\n".toList
    ++ ("\nExample: ".toList ++ prog ++ " 32 full\n".toList)

/-- Result of one program invocation: the exit code and everything written
to the primary output stream (stdout).  Diagnostics go to stderr and are
not tracked. -/
structure MainOutcome where
  exitCode : Nat
  stdout : List Char
deriving DecidableEq, Repr

/-- `main` (crypto_random.c lines 159-213).  `arg1`/`arg2` are `argv[1]`
and `argv[2]` (absent when `argc` is too small); the allocation flags and
the random-byte outcome parameterise `generate_random_string` as above.
With no length argument, the usage text is printed to stdout and the exit
code is 1.  On full success the generated string plus a newline is the
whole stdout and the exit code is 0; every other failure writes only to
stderr and exits 1. -/
def main_run (prog : List Char) (arg1 arg2 : Option (List Char))
    (allocResult allocBytes : Bool) (randomBytes : Option (List Nat)) :
    MainOutcome :=
  match arg1 with
  | none => { exitCode := 1, stdout := usage_text prog }
  | some a1 =>
      match parse_length a1 with
      | none => { exitCode := 1, stdout := [] }
      | some len =>
          match parse_charset arg2 with
          | none => { exitCode := 1, stdout := [] }
          | some cs =>
              match generate_random_string len.toNat cs allocResult allocBytes randomBytes with
              | none => { exitCode := 1, stdout := [] }
              | some str => { exitCode := 0, stdout := str ++ ['\n'] }

/-- Invariant of the fallback read loop: starting from an accumulator not
longer than `length`, a successful run returns exactly `length` bytes. -/
theorem urandom_read_loop_length (events : List ReadResult) :
    ∀ (length : Nat) (acc out : List Nat), acc.length ≤ length →
      urandom_read_loop length acc events = some out → out.length = length := by
  induction events with
  | nil =>
      intro length acc out hle h
      simp only [urandom_read_loop] at h
      split at h
      · cases h; omega
      · exact absurd h (by simp)
  | cons ev rest ih =>
      intro length acc out hle h
      cases ev with
      | err isEINTR =>
          simp only [urandom_read_loop] at h
          split at h
          · cases h; omega
          · split at h
            · exact ih length acc out hle h
            · exact absurd h (by simp)
      | ok chunk =>
          simp only [urandom_read_loop] at h
          split at h
          · cases h; omega
          · refine ih length _ out ?_ h
            simp only [List.length_append, List.length_take]
            omega

/-- A successful `generate_random_string` call yields exactly `length`
characters. -/
theorem generate_random_string_length (len : Nat) (cs : List Char)
    (a1 a2 : Bool) (rb : Option (List Nat)) (out : List Char)
    (h : generate_random_string len cs a1 a2 rb = some out) : out.length = len := by
  cases a1 with
  | false => exact absurd h (by simp [generate_random_string])
  | true =>
    cases a2 with
    | false => exact absurd h (by simp [generate_random_string])
    | true =>
      cases rb with
      | none => exact absurd h (by simp [generate_random_string])
      | some bs =>
          simp only [generate_random_string] at h
          rw [if_neg (by simp), if_neg (by simp)] at h
          cases h
          simp

end Randstr

namespace Randstr

/-- Claim C1: whenever `generate_random_string length C` succeeds for one of
the fixed charsets FULL, ALNUM, NUM, the result has exactly `length`
characters and each character is a member of `C`. -/
theorem C1_generate_length_membership
    (len : Nat) (cs : List Char)
    (hcs : cs = CHARSET_FULL ∨ cs = CHARSET_ALNUM ∨ cs = CHARSET_NUM)
    (a1 a2 : Bool) (rb : Option (List Nat)) (out : List Char)
    (hout : generate_random_string len cs a1 a2 rb = some out) :
    out.length = len ∧ ∀ c ∈ out, c ∈ cs := by
  have hpos : 0 < cs.length := by
    rcases hcs with h | h | h <;> subst h <;> decide
  cases a1 with
  | false => exact absurd hout (by simp [generate_random_string])
  | true =>
    cases a2 with
    | false => exact absurd hout (by simp [generate_random_string])
    | true =>
      cases rb with
      | none => exact absurd hout (by simp [generate_random_string])
      | some bs =>
        simp only [generate_random_string] at hout
        rw [if_neg (by simp), if_neg (by simp)] at hout
        cases hout
        constructor
        · simp
        · intro c hc
          simp only [List.mem_map] at hc
          obtain ⟨i, _, hi⟩ := hc
          subst hi
          unfold charset_map
          have hlt : (bs.getD i 0) % cs.length < cs.length :=
            Nat.mod_lt _ hpos
          rw [List.getD_eq_getElem cs 'A' hlt]
          exact List.getElem_mem hlt

/-- Claim C1 witness at length 2 over CHARSET_NUM with bytes 5 and 13. -/
theorem C1_generate_length_membership_witness :
    (['5', '3'] : List Char).length = 2 ∧ ∀ c ∈ (['5', '3'] : List Char), c ∈ CHARSET_NUM :=
  C1_generate_length_membership 2 CHARSET_NUM (Or.inr (Or.inr rfl))
    true true (some [5, 13]) ['5', '3'] (by decide)

/-- Claim C2: the generated string is the positionwise modulo image of the
random bytes — for every `i < length` the output character at position `i`
is `charset[b_i % charset_size]`, where `b_i` is the `i`-th byte the source
returned. -/
theorem C2_positionwise_modulo
    (len : Nat) (cs : List Char) (bs : List Nat)
    (a1 a2 : Bool) (out : List Char)
    (_hlen : bs.length = len)
    (hout : generate_random_string len cs a1 a2 (some bs) = some out)
    (i : Nat) (hi : i < len) :
    out.getD i 'A' = cs.getD (bs.getD i 0 % cs.length) 'A' := by
  cases a1 with
  | false => exact absurd hout (by simp [generate_random_string])
  | true =>
    cases a2 with
    | false => exact absurd hout (by simp [generate_random_string])
    | true =>
      simp only [generate_random_string] at hout
      rw [if_neg (by simp), if_neg (by simp)] at hout
      cases hout
      have hi' : i < ((List.range len).map
          fun j => charset_map cs (bs.getD j 0)).length := by
        simpa using hi
      rw [List.getD_eq_getElem _ 'A' hi']
      simp [charset_map]

/-- Claim C2 witness: length 3 over CHARSET_NUM with bytes 5, 13, 250;
position 2 maps byte 250 to charset index 250 % 10 = 0. -/
theorem C2_positionwise_modulo_witness :
    (['5', '3', '0'] : List Char).getD 2 'A'
      = CHARSET_NUM.getD (([5, 13, 250] : List Nat).getD 2 0 % CHARSET_NUM.length) 'A' :=
  C2_positionwise_modulo 3 CHARSET_NUM [5, 13, 250] true true ['5', '3', '0']
    (by decide) (by decide) 2 (by decide)

/-- Claim C3 counterexample: `CHARSET_FULL` contains 88 characters, not the
90 the claim states. -/
theorem C3_full_is_88_not_90 : ¬ (CHARSET_FULL.length = 90) := by decide

/-- Claim C3 (amended): `CHARSET_FULL` has 88 characters (not 90),
`CHARSET_ALNUM` has 62, `CHARSET_NUM` has 10, and each of the three is
non-empty and contains no duplicate characters. -/
theorem C3_charset_sizes_nodup :
    CHARSET_FULL.length = 88 ∧ CHARSET_ALNUM.length = 62 ∧ CHARSET_NUM.length = 10
      ∧ CHARSET_FULL ≠ [] ∧ CHARSET_ALNUM ≠ [] ∧ CHARSET_NUM ≠ []
      ∧ CHARSET_FULL.Nodup ∧ CHARSET_ALNUM.Nodup ∧ CHARSET_NUM.Nodup := by
  decide

/-- Claim C4: on the `/dev/urandom` fallback path, while bytes are still
owed: an EINTR read error is retried (same state, rest of the trace), a
non-EINTR read error fails the whole call, a partial read is accumulated
and the loop continues, and a successful call returns exactly `count`
bytes. -/
theorem C4_urandom_fallback_behaviour :
    (∀ (len : Nat) (acc : List Nat) (rest : List ReadResult), acc.length < len →
        urandom_read_loop len acc (ReadResult.err true :: rest)
          = urandom_read_loop len acc rest)
  ∧ (∀ (len : Nat) (acc : List Nat) (rest : List ReadResult), acc.length < len →
        urandom_read_loop len acc (ReadResult.err false :: rest) = none)
  ∧ (∀ (len : Nat) (acc chunk : List Nat) (rest : List ReadResult), acc.length < len →
        urandom_read_loop len acc (ReadResult.ok chunk :: rest)
          = urandom_read_loop len (acc ++ chunk.take (len - acc.length)) rest)
  ∧ (∀ (len : Nat) (openOk : Bool) (events : List ReadResult) (out : List Nat),
        get_random_bytes_fallback len openOk events = some out → out.length = len) := by
  refine ⟨?_, ?_, ?_, ?_⟩
  · intro len acc rest hlt
    simp only [urandom_read_loop]
    rw [if_neg (by omega)]
    simp
  · intro len acc rest hlt
    simp only [urandom_read_loop]
    rw [if_neg (by omega)]
    simp
  · intro len acc chunk rest hlt
    simp only [urandom_read_loop]
    rw [if_neg (by omega)]
  · intro len openOk events out h
    cases openOk with
    | false => exact absurd h (by simp [get_random_bytes_fallback])
    | true =>
        simp only [get_random_bytes_fallback, if_pos] at h
        exact urandom_read_loop_length events len [] out (by simp) h

/-- Claim C4 witness: the four conjuncts instantiated on small concrete
traces requesting 2 bytes. -/
theorem C4_urandom_fallback_behaviour_witness :
    (urandom_read_loop 2 [7] (ReadResult.err true :: [ReadResult.ok [9]])
        = urandom_read_loop 2 [7] [ReadResult.ok [9]])
  ∧ (urandom_read_loop 2 [7] (ReadResult.err false :: [ReadResult.ok [9]]) = none)
  ∧ (urandom_read_loop 2 [7] (ReadResult.ok [9] :: [])
        = urandom_read_loop 2 ([7] ++ ([9] : List Nat).take (2 - ([7] : List Nat).length)) [])
  ∧ ([1, 2] : List Nat).length = 2 :=
  ⟨C4_urandom_fallback_behaviour.1 2 [7] [ReadResult.ok [9]] (by decide),
   C4_urandom_fallback_behaviour.2.1 2 [7] [ReadResult.ok [9]] (by decide),
   C4_urandom_fallback_behaviour.2.2.1 2 [7] [9] [] (by decide),
   C4_urandom_fallback_behaviour.2.2.2 2 true [ReadResult.ok [1, 2]] [1, 2] (by decide)⟩

/-- Claim C5 counterexample: invoked with no length argument, the program
prints the usage banner on the primary output stream (stdout, via
`printf` in `print_usage`) and still exits with failure — so it is not
true that every failing invocation emits nothing on the primary stream. -/
theorem C5_no_arg_prints_usage_on_stdout :
    (main_run "./randstr".toList none none true true (some [])).exitCode = 1
      ∧ (main_run "./randstr".toList none none true true (some [])).stdout ≠ [] := by
  constructor
  · rfl
  · decide

/-- Claim C5 (amended): for every invocation that supplies a length
argument, either the run succeeds — exit code 0 and stdout is exactly a
string of the parsed requested length followed by a newline — or it fails
with exit code 1 and nothing on stdout; in particular random-source and
allocation failures inside `generate_random_string` produce no primary
output. -/
theorem C5_all_or_nothing_output (prog a1 : List Char) (arg2 : Option (List Char))
    (aR aB : Bool) (rb : Option (List Nat)) :
    (∃ len out, parse_length a1 = some len ∧ out.length = len.toNat
        ∧ main_run prog (some a1) arg2 aR aB rb = ⟨0, out ++ ['\n']⟩)
      ∨ main_run prog (some a1) arg2 aR aB rb = ⟨1, []⟩ := by
  cases hl : parse_length a1 with
  | none => exact Or.inr (by simp only [main_run, hl])
  | some len =>
    cases hc : parse_charset arg2 with
    | none => exact Or.inr (by simp only [main_run, hl, hc])
    | some cs =>
      cases hg : generate_random_string len.toNat cs aR aB rb with
      | none => exact Or.inr (by simp only [main_run, hl, hc, hg])
      | some str =>
          refine Or.inl ⟨len, str, rfl,
            generate_random_string_length _ _ _ _ _ _ hg, ?_⟩
          simp only [main_run, hl, hc, hg]

/-- Claim C6: a zero-length generation request that succeeds returns the
empty string for every charset, and the Shannon entropy of the empty
string is exactly 0 (the frequency loop contributes no terms). -/
theorem C6_zero_length_empty_entropy :
    (∀ (cs : List Char) (a1 a2 : Bool) (rb : Option (List Nat)) (out : List Char),
        generate_random_string 0 cs a1 a2 rb = some out → out = [])
      ∧ calculate_shannon_entropy [] = 0 := by
  constructor
  · intro cs a1 a2 rb out h
    have := generate_random_string_length 0 cs a1 a2 rb out h
    exact List.eq_nil_of_length_eq_zero this
  · simp [calculate_shannon_entropy]

/-- Claim C6 witness: generating 0 characters over CHARSET_NUM with a
successful byte source yields `[]`. -/
theorem C6_zero_length_empty_entropy_witness :
    ([] : List Char) = [] ∧ calculate_shannon_entropy [] = 0 :=
  ⟨C6_zero_length_empty_entropy.1 CHARSET_NUM true true (some []) [] rfl,
   C6_zero_length_empty_entropy.2⟩

/-- Claim C7: Shannon entropy is invariant under permutation of the input
string — it depends only on the byte-frequency distribution. -/
theorem C7_entropy_perm_invariant (s t : List Nat) (h : s.Perm t) :
    calculate_shannon_entropy s = calculate_shannon_entropy t := by
  unfold calculate_shannon_entropy
  refine Finset.sum_congr rfl fun i _ => ?_
  rw [h.count_eq, h.length_eq]

/-- Claim C7 witness: the two orderings of the bytes 1, 2 have equal
entropy. -/
theorem C7_entropy_perm_invariant_witness :
    calculate_shannon_entropy [1, 2] = calculate_shannon_entropy [2, 1] :=
  C7_entropy_perm_invariant [1, 2] [2, 1] (List.Perm.swap 2 1 [])

/-- Claim C8: the command-line boundary rejects — identically, for every
state of the allocator and byte source, hence before the generator can
matter — every length whose parse is out of `(0, 1000000]` or leaves
unconsumed characters, and every mode other than full/alnum/num; the exit
code is always 0 or 1, any allocation or byte-source failure exits 1, and
a fully valid invocation exits 0. -/
theorem C8_cli_validation :
    (∀ (prog a1 : List Char) (arg2 : Option (List Char)) (aR aB : Bool)
        (rb : Option (List Nat)),
        ((strtol10 a1).1 ≤ 0 ∨ (strtol10 a1).1 > 1000000 ∨ (strtol10 a1).2 ≠ a1.length) →
        main_run prog (some a1) arg2 aR aB rb = ⟨1, []⟩)
  ∧ (∀ (prog a1 m : List Char) (aR aB : Bool) (rb : Option (List Nat)),
        m ≠ "full".toList → m ≠ "alnum".toList → m ≠ "num".toList →
        main_run prog (some a1) (some m) aR aB rb = ⟨1, []⟩)
  ∧ (∀ (prog : List Char) (arg1 arg2 : Option (List Char)) (aR aB : Bool)
        (rb : Option (List Nat)),
        (main_run prog arg1 arg2 aR aB rb).exitCode = 0
          ∨ (main_run prog arg1 arg2 aR aB rb).exitCode = 1)
  ∧ (∀ (prog : List Char) (arg1 arg2 : Option (List Char)) (aR aB : Bool)
        (rb : Option (List Nat)),
        (aR = false ∨ aB = false ∨ rb = none) →
        (main_run prog arg1 arg2 aR aB rb).exitCode = 1)
  ∧ (∀ (prog a1 : List Char) (arg2 : Option (List Char)) (bs : List Nat)
        (len : Int) (cs : List Char),
        parse_length a1 = some len → parse_charset arg2 = some cs →
        (main_run prog (some a1) arg2 true true (some bs)).exitCode = 0) := by
  refine ⟨?_, ?_, ?_, ?_, ?_⟩
  · intro prog a1 arg2 aR aB rb h
    have hl : parse_length a1 = none := by
      simp only [parse_length]
      rw [if_pos (by tauto)]
    simp only [main_run, hl]
  · intro prog a1 m aR aB rb h1 h2 h3
    have hc : parse_charset (some m) = none := by
      simp only [parse_charset]
      rw [if_neg (by simpa using h2), if_neg (by simpa using h3), if_neg (by simpa using h1)]
    cases hl : parse_length a1 with
    | none => simp only [main_run, hl]
    | some len => simp only [main_run, hl, hc]
  · intro prog arg1 arg2 aR aB rb
    cases arg1 with
    | none => exact Or.inr (by simp only [main_run])
    | some a1 =>
      cases hl : parse_length a1 with
      | none => exact Or.inr (by simp only [main_run, hl])
      | some len =>
        cases hc : parse_charset arg2 with
        | none => exact Or.inr (by simp only [main_run, hl, hc])
        | some cs =>
          cases hg : generate_random_string len.toNat cs aR aB rb with
          | none => exact Or.inr (by simp only [main_run, hl, hc, hg])
          | some str => exact Or.inl (by simp only [main_run, hl, hc, hg])
  · intro prog arg1 arg2 aR aB rb h
    have hg : ∀ (L : Nat) (cs : List Char),
        generate_random_string L cs aR aB rb = none := by
      intro L cs
      cases aR <;> cases aB <;> rcases h with h | h | h <;>
        simp_all [generate_random_string]
    cases arg1 with
    | none => simp only [main_run]
    | some a1 =>
      cases hl : parse_length a1 with
      | none => simp only [main_run, hl]
      | some len =>
        cases hc : parse_charset arg2 with
        | none => simp only [main_run, hl, hc]
        | some cs => simp only [main_run, hl, hc, hg]
  · intro prog a1 arg2 bs len cs hl hc
    simp only [main_run, hl, hc]
    simp [generate_random_string]

/-- Claim C8 witness: concrete instances of the five conjuncts — length
argument "0" rejected, mode "bogus" rejected, a concrete run has exit code
0 or 1, a run with no random bytes exits 1, and `./randstr 3 num` with a
working source and allocator exits 0. -/
theorem C8_cli_validation_witness :
    main_run "p".toList (some "0".toList) none true true (some []) = ⟨1, []⟩
  ∧ main_run "p".toList (some "3".toList) (some "bogus".toList) true true (some []) = ⟨1, []⟩
  ∧ ((main_run "p".toList (some "3".toList) none true true (some [])).exitCode = 0
      ∨ (main_run "p".toList (some "3".toList) none true true (some [])).exitCode = 1)
  ∧ (main_run "p".toList (some "3".toList) none true true none).exitCode = 1
  ∧ (main_run "p".toList (some "3".toList) (some "num".toList) true true
        (some [5, 13, 250])).exitCode = 0 :=
  ⟨C8_cli_validation.1 "p".toList "0".toList none true true (some []) (by decide),
   C8_cli_validation.2.1 "p".toList "3".toList "bogus".toList true true (some [])
     (by decide) (by decide) (by decide),
   C8_cli_validation.2.2.1 "p".toList (some "3".toList) none true true (some []),
   C8_cli_validation.2.2.2.1 "p".toList (some "3".toList) none true true none
     (Or.inr (Or.inr rfl)),
   C8_cli_validation.2.2.2.2 "p".toList "3".toList (some "num".toList) [5, 13, 250]
     3 CHARSET_NUM (by decide) (by decide)⟩

/-- Claim C10: because the length is parsed with `strtol`, arguments such
as "+42" and " 42" are accepted, and an argument is accepted exactly when
`strtol` consumes the whole string and its value lies in `(0, 1000000]`. -/
theorem C10_strtol_acceptance :
    parse_length ("+42".toList) = some 42
  ∧ parse_length (" 42".toList) = some 42
  ∧ (∀ s : List Char, (parse_length s).isSome
        ↔ ((strtol10 s).2 = s.length ∧ 0 < (strtol10 s).1 ∧ (strtol10 s).1 ≤ 1000000)) := by
  refine ⟨by decide, by decide, fun s => ?_⟩
  simp only [parse_length]
  split
  · next h =>
      simp only [Option.isSome_none, Bool.false_eq_true, false_iff]
      intro hc
      rcases h with h | h | h <;> omega
  · next h =>
      simp only [Option.isSome_some, true_iff]
      push_neg at h
      refine ⟨h.1, by omega, by omega⟩

/-- The entropy sum over all 256 byte values equals the sum over the
values that actually occur in the string. -/
theorem shannon_entropy_eq_sum_toFinset (s : List Nat) (h256 : ∀ b ∈ s, b < 256) :
    calculate_shannon_entropy s
      = ∑ i ∈ s.toFinset,
          -(((s.count i : ℝ) / (s.length : ℝ))
              * (Real.log ((s.count i : ℝ) / (s.length : ℝ)) / Real.log 2)) := by
  unfold calculate_shannon_entropy
  rw [← Finset.sum_filter]
  congr 1
  ext i
  simp only [Finset.mem_filter, Finset.mem_range, List.mem_toFinset]
  constructor
  · rintro ⟨-, h⟩
    exact List.count_pos_iff.mp h
  · intro h
    exact ⟨h256 i h, List.count_pos_iff.mpr h⟩

/-- The relative frequencies of the occurring byte values sum to 1. -/
theorem shannon_freq_sum_one (s : List Nat) (hn : s ≠ []) :
    ∑ i ∈ s.toFinset, (s.count i : ℝ) / (s.length : ℝ) = 1 := by
  have hnR : (0:ℝ) < (s.length : ℝ) := by
    have := List.length_pos.mpr hn
    exact_mod_cast this
  rw [← Finset.sum_div, div_eq_one_iff_eq (ne_of_gt hnR)]
  have h := Multiset.toFinset_sum_count_eq (s : Multiset Nat)
  simp only [List.toFinset_coe, Multiset.coe_count, Multiset.coe_card] at h
  exact_mod_cast h

/-- Claim C9: for every byte string `s`, the computed Shannon entropy is
non-negative, at most `log2` of the number of distinct byte values
occurring in `s`, and hence at most 8. -/
theorem C9_entropy_bounds (s : List Nat) (h256 : ∀ b ∈ s, b < 256) :
    0 ≤ calculate_shannon_entropy s
  ∧ calculate_shannon_entropy s ≤ Real.logb 2 (s.toFinset.card : ℝ)
  ∧ calculate_shannon_entropy s ≤ 8 := by
  have hlog2 : (0:ℝ) < Real.log 2 := Real.log_pos one_lt_two
  rcases eq_or_ne s [] with hs | hs
  · subst hs
    refine ⟨by simp [calculate_shannon_entropy], ?_, ?_⟩
    · simp [calculate_shannon_entropy, Real.logb]
    · simp [calculate_shannon_entropy]
  · have hn : 0 < s.length := List.length_pos.mpr hs
    have hnR : (0:ℝ) < (s.length : ℝ) := by exact_mod_cast hn
    have hSne : s.toFinset.Nonempty := by
      obtain ⟨b, hb⟩ := List.exists_mem_of_ne_nil s hs
      exact ⟨b, List.mem_toFinset.mpr hb⟩
    have hk : 0 < s.toFinset.card := Finset.card_pos.mpr hSne
    have hkR : (0:ℝ) < (s.toFinset.card : ℝ) := by exact_mod_cast hk
    have hppos : ∀ i ∈ s.toFinset, (0:ℝ) < (s.count i : ℝ) / (s.length : ℝ) := by
      intro i hi
      have hc : 0 < s.count i := List.count_pos_iff.mpr (List.mem_toFinset.mp hi)
      have hcR : (0:ℝ) < (s.count i : ℝ) := by exact_mod_cast hc
      positivity
    have hple : ∀ i ∈ s.toFinset, (s.count i : ℝ) / (s.length : ℝ) ≤ 1 := by
      intro i _
      rw [div_le_one hnR]
      exact_mod_cast List.count_le_length i s
    have hsum1 := shannon_freq_sum_one s hs
    have hH : calculate_shannon_entropy s
        = (∑ i ∈ s.toFinset,
            -(((s.count i : ℝ) / (s.length : ℝ))
                * Real.log ((s.count i : ℝ) / (s.length : ℝ)))) / Real.log 2 := by
      rw [shannon_entropy_eq_sum_toFinset s h256, Finset.sum_div]
      exact Finset.sum_congr rfl fun i _ => by ring
    have hHn_nonneg : 0 ≤ ∑ i ∈ s.toFinset,
        -(((s.count i : ℝ) / (s.length : ℝ))
            * Real.log ((s.count i : ℝ) / (s.length : ℝ))) := by
      refine Finset.sum_nonneg fun i hi => ?_
      have h1 := hppos i hi
      have h2 := hple i hi
      have h3 : Real.log ((s.count i : ℝ) / (s.length : ℝ)) ≤ 0 :=
        Real.log_nonpos h1.le h2
      nlinarith
    have key : ∀ i ∈ s.toFinset,
        -(((s.count i : ℝ) / (s.length : ℝ))
            * Real.log ((s.count i : ℝ) / (s.length : ℝ)))
          ≤ 1 / (s.toFinset.card : ℝ) - (s.count i : ℝ) / (s.length : ℝ)
            + ((s.count i : ℝ) / (s.length : ℝ)) * Real.log (s.toFinset.card : ℝ) := by
      intro i hi
      have hp := hppos i hi
      have hcR : (0:ℝ) < (s.count i : ℝ) := by
        have hc := List.count_pos_iff.mpr (List.mem_toFinset.mp hi)
        exact_mod_cast hc
      have hx : (0:ℝ) < 1 / (((s.count i : ℝ) / (s.length : ℝ)) * (s.toFinset.card : ℝ)) := by
        positivity
      have hlog := Real.log_le_sub_one_of_pos hx
      rw [one_div, Real.log_inv,
        Real.log_mul (ne_of_gt hp) (ne_of_gt hkR)] at hlog
      have hmul := mul_le_mul_of_nonneg_left hlog hp.le
      have e1 : ((s.count i : ℝ) / (s.length : ℝ))
            * -(Real.log ((s.count i : ℝ) / (s.length : ℝ)) + Real.log (s.toFinset.card : ℝ))
          = -(((s.count i : ℝ) / (s.length : ℝ))
                * Real.log ((s.count i : ℝ) / (s.length : ℝ)))
            - ((s.count i : ℝ) / (s.length : ℝ)) * Real.log (s.toFinset.card : ℝ) := by
        ring
      have e2 : ((s.count i : ℝ) / (s.length : ℝ))
            * ((((s.count i : ℝ) / (s.length : ℝ)) * (s.toFinset.card : ℝ))⁻¹ - 1)
          = 1 / (s.toFinset.card : ℝ) - (s.count i : ℝ) / (s.length : ℝ) := by
        field_simp [ne_of_gt hcR, ne_of_gt hnR, ne_of_gt hkR]
        ring
      rw [e1, e2] at hmul
      linarith
    have hsum_bound : (∑ i ∈ s.toFinset,
          -(((s.count i : ℝ) / (s.length : ℝ))
              * Real.log ((s.count i : ℝ) / (s.length : ℝ))))
        ≤ Real.log (s.toFinset.card : ℝ) := by
      have h1 := Finset.sum_le_sum key
      have h2 : ∑ i ∈ s.toFinset,
            (1 / (s.toFinset.card : ℝ) - (s.count i : ℝ) / (s.length : ℝ)
              + ((s.count i : ℝ) / (s.length : ℝ)) * Real.log (s.toFinset.card : ℝ))
          = Real.log (s.toFinset.card : ℝ) := by
        rw [Finset.sum_add_distrib, Finset.sum_sub_distrib, Finset.sum_const,
          ← Finset.sum_mul, hsum1, nsmul_eq_mul, mul_one_div,
          div_self (ne_of_gt hkR)]
        ring
      linarith
    have hmain : calculate_shannon_entropy s ≤ Real.logb 2 (s.toFinset.card : ℝ) := by
      rw [hH, Real.logb]
      exact (div_le_div_iff_of_pos_right hlog2).mpr hsum_bound
    have hcard : s.toFinset.card ≤ 256 := by
      have hsub : s.toFinset ⊆ Finset.range 256 := fun i hi =>
        Finset.mem_range.mpr (h256 i (List.mem_toFinset.mp hi))
      simpa using Finset.card_le_card hsub
    have h8 : Real.logb 2 (s.toFinset.card : ℝ) ≤ 8 := by
      have hlogk : Real.log (s.toFinset.card : ℝ) ≤ Real.log 256 :=
        Real.log_le_log hkR (by exact_mod_cast hcard)
      have hl256 : Real.log (256:ℝ) = 8 * Real.log 2 := by
        rw [show (256:ℝ) = 2 ^ (8:ℕ) by norm_num, Real.log_pow]
        norm_num
      rw [Real.logb, div_le_iff₀ hlog2]
      linarith
    exact ⟨by rw [hH]; exact div_nonneg hHn_nonneg hlog2.le, hmain, hmain.trans h8⟩

/-- Claim C9 witness: the entropy of the byte string `[0, 1]` is
non-negative, at most `log2 2`, and at most 8. -/
theorem C9_entropy_bounds_witness :
    0 ≤ calculate_shannon_entropy [0, 1]
  ∧ calculate_shannon_entropy [0, 1] ≤ Real.logb 2 (([0, 1] : List Nat).toFinset.card : ℝ)
  ∧ calculate_shannon_entropy [0, 1] ≤ 8 :=
  C9_entropy_bounds [0, 1] (by decide)

end Randstr
